import Mathlib

/-!
Verification of the JustCall transcript-exporter core
(`src/services/justcall.ts`, first variant, which the claim sources cite,
together with the caller `src/App.tsx`).

The TypeScript code is shallowly embedded:
* JavaScript runtime values are modelled by `JsValue`; a `RawCallRecord`
  ("an arbitrary JSON object returned by the upstream API") is a `JsValue.obj`.
* JavaScript truthiness (`a || b`, `a && b`) is modelled by `truthy` and
  `orLiteral`.
* Property access `v.k` returns `undefined` for a missing key and throws a
  TypeError when the base is `null`/`undefined`; the throwing cases are
  modelled by the `canAccess` guard, the non-throwing lookup by `getPropT`.
* The paginated fetch loop is modelled by `fetchPages`, a fuel-indexed
  recursion over the page counter; the network (axios through the selected
  proxy strategy) is abstracted as `upstream : Nat → Except Unit JsValue`
  giving, per page, either the parsed response body or a thrown
  transport/HTTP error.  The inter-page `sleep` has no observable effect on
  the returned data and is dropped.
-/

/-- A JavaScript runtime value, as far as the service code observes it. -/
inductive JsValue where
  | undef : JsValue
  | nullV : JsValue
  | bool : Bool → JsValue
  | num : Int → JsValue
  | str : String → JsValue
  | arr : List JsValue → JsValue
  | obj : List (String × JsValue) → JsValue
deriving Repr

/-- JavaScript truthiness: `undefined`, `null`, `false`, `0` and `""` are
falsy; every object and array is truthy. -/
def truthy : JsValue → Bool
  | JsValue.undef => false
  | JsValue.nullV => false
  | JsValue.bool b => b
  | JsValue.num n => decide (n ≠ 0)
  | JsValue.str s => decide (s ≠ "")
  | JsValue.arr _ => true
  | JsValue.obj _ => true

/-- `x || fallback` where the fallback is a literal: the JS logical-or
returns the left operand when truthy, otherwise the right operand. -/
def orLiteral (v fallback : JsValue) : JsValue :=
  if truthy v then v else fallback

/-- First binding of a key in a JS object (object keys are unique in the
object literals the upstream produces); a missing key reads as `undefined`. -/
def lookupField : List (String × JsValue) → String → JsValue
  | [], _ => JsValue.undef
  | (k', v) :: rest, k => if k' = k then v else lookupField rest k

/-- Property access on a value that is not `null`/`undefined`: objects look
up the key, primitives and arrays read `undefined` for the keys the service
uses. -/
def getPropT (v : JsValue) (k : String) : JsValue :=
  match v with
  | JsValue.obj fs => lookupField fs k
  | _ => JsValue.undef

/-- Property access on `null` or `undefined` throws a TypeError in JS; every
other base can be dereferenced. -/
def canAccess : JsValue → Bool
  | JsValue.undef => false
  | JsValue.nullV => false
  | _ => true

/-- Escape of one character inside a JSON string literal. -/
def jsonEscapeChar (c : Char) : String :=
  if c = '"' then "\\\"" else if c = '\\' then "\\\\" else String.singleton c

/-- Escape of a JSON string body. -/
def jsonEscape (s : String) : String :=
  String.join (s.data.map jsonEscapeChar)

mutual

/-- Model of `JSON.stringify` on defined values (`undefined` inside an array
serializes as `null`; `undefined`-valued object properties are skipped, as in
JS).  The top-level `undefined` case is routed through `jsonStringifyV`. -/
def jsonStringifyCore : JsValue → String
  | JsValue.undef => "null"
  | JsValue.nullV => "null"
  | JsValue.bool true => "true"
  | JsValue.bool false => "false"
  | JsValue.num n => toString n
  | JsValue.str s => "\"" ++ jsonEscape s ++ "\""
  | JsValue.arr xs => "[" ++ String.intercalate "," (jsonStringifyArr xs) ++ "]"
  | JsValue.obj fs => "\x7b" ++ String.intercalate "," (jsonStringifyObj fs) ++ "\x7d"

/-- `JSON.stringify` across array elements. -/
def jsonStringifyArr : List JsValue → List String
  | [] => []
  | v :: vs => jsonStringifyCore v :: jsonStringifyArr vs

/-- `JSON.stringify` across object properties. -/
def jsonStringifyObj : List (String × JsValue) → List String
  | [] => []
  | (k, v) :: fs =>
    match v with
    | JsValue.undef => jsonStringifyObj fs
    | v' => ("\"" ++ jsonEscape k ++ "\":" ++ jsonStringifyCore v') :: jsonStringifyObj fs

end

/-- `JSON.stringify` as a JS-value-to-JS-value map: `undefined` stringifies
to `undefined`, everything else to a string. -/
def jsonStringifyV (v : JsValue) : JsValue :=
  match v with
  | JsValue.undef => JsValue.undef
  | v' => JsValue.str (jsonStringifyCore v')

/-- The normalized output record pushed by the fetch loop
(`interface TranscriptData` in `src/services/justcall.ts`).  The TS
interface declares every field as `string`, but at runtime the loop copies
raw JS values into all fields except `transcript`, so the fields are
modelled as `JsValue`.  `from` is a Lean keyword, hence the field name
`from_`. -/
structure TranscriptData where
  id : JsValue
  datetime : JsValue
  from_ : JsValue
  to_ : JsValue
  duration : JsValue
  direction : JsValue
  transcript : JsValue
  recording_url : JsValue
deriving Repr

/-- Transcript text resolution of the loop body (lines 130-137):
`call.iq_transcript || call.call_transcription || call.transcription ||
(call.extra_details && call.extra_details.transcript) ||
(call.justcall_iq && call.justcall_iq.transcript) || "[No Transcript Found]"`.
The caller guarantees `canAccess call`; the two nested accesses are guarded
by `&&`, so they only dereference truthy (hence accessible) bases. -/
def computeTextPure (call : JsValue) : JsValue :=
  let iq := getPropT call "iq_transcript"
  if truthy iq then iq else
  let ct := getPropT call "call_transcription"
  if truthy ct then ct else
  let tr := getPropT call "transcription"
  if truthy tr then tr else
  let ed := getPropT call "extra_details"
  let edT := if truthy ed then getPropT ed "transcript" else ed
  if truthy edT then edT else
  let jq := getPropT call "justcall_iq"
  let jqT := if truthy jq then getPropT jq "transcript" else jq
  if truthy jqT then jqT else JsValue.str "[No Transcript Found]"

/-- The object pushed onto `allTranscripts` (lines 139-148), for a `call`
that is not `null`/`undefined`. -/
def normalizeCallPure (call : JsValue) : TranscriptData :=
  let text := computeTextPure call
  { id := getPropT call "id"
    datetime := orLiteral (getPropT call "datetime")
      (orLiteral (getPropT call "date") (JsValue.str "Unknown Date"))
    from_ := orLiteral (getPropT call "from") (JsValue.str "Unknown")
    to_ := orLiteral (getPropT call "to") (JsValue.str "Unknown")
    duration := orLiteral (getPropT call "duration") (JsValue.str "0")
    direction := orLiteral (getPropT call "direction") (JsValue.str "Unknown")
    transcript :=
      match text with
      | JsValue.str s => JsValue.str s
      | v => jsonStringifyV v
    recording_url := orLiteral (getPropT call "recording_url") (JsValue.str "") }

/-- One iteration of the record loop: if the element is `null`/`undefined`
the first property access throws (caught by the surrounding try/catch),
otherwise the normalized record is produced. -/
def normalizeCall (call : JsValue) : Except Unit TranscriptData :=
  if canAccess call then Except.ok (normalizeCallPure call) else Except.error ()

/-- The `for (const call of calls)` loop: normalizes in order, propagating a
thrown TypeError. -/
def normalizeAll : List JsValue → Except Unit (List TranscriptData)
  | [] => Except.ok []
  | c :: cs =>
    match normalizeCall c with
    | Except.error e => Except.error e
    | Except.ok r =>
      match normalizeAll cs with
      | Except.error e => Except.error e
      | Except.ok rs => Except.ok (r :: rs)

/-- Extraction of the page's record array (line 124):
`calls = Array.isArray(data.data) ? data.data : (Array.isArray(data) ? data : [])`.
Reading `data.data` throws when `data` is `null`/`undefined`. -/
def extractCalls (data : JsValue) : Except Unit (List JsValue) :=
  if canAccess data then
    Except.ok
      (match getPropT data "data" with
       | JsValue.arr xs => xs
       | _ =>
         match data with
         | JsValue.arr ys => ys
         | _ => [])
  else Except.error ()

/-- The `while (hasMore)` fetch loop (lines 109-159), indexed by fuel:
`none` means the loop is still running after `fuel` iterations (the real
loop would keep issuing requests).  The second component of the result is
the list of running totals passed to `onProgress`, in call order; the first
is the thrown-or-returned outcome.  Page requests go through `upstream`,
which abstracts `axios.get` on the URL built for the selected proxy
strategy; the pre-loop strategy probe (lines 99-105) only chooses that URL
and is invisible to the data flow modelled here.  The `sleep(500)` between
full pages is dropped. -/
def fetchPages (upstream : Nat → Except Unit JsValue) :
    Nat → Nat → List TranscriptData → List Nat →
    Option (Except Unit (List TranscriptData) × List Nat)
  | 0, _, _, _ => none
  | fuel + 1, page, acc, prog =>
    match upstream page with
    | Except.error _ => some (Except.error (), prog)
    | Except.ok dataV =>
      match extractCalls dataV with
      | Except.error _ => some (Except.error (), prog)
      | Except.ok calls =>
        if calls.length = 0 then
          some (Except.ok acc, prog)
        else
          match normalizeAll calls with
          | Except.error _ => some (Except.error (), prog)
          | Except.ok recs =>
            let acc2 := acc ++ recs
            let prog2 := prog ++ [acc2.length]
            if calls.length < 50 then some (Except.ok acc2, prog2)
            else fetchPages upstream fuel (page + 1) acc2 prog2

/-- The message of the error thrown by the catch block of
`fetchJustCallTranscripts` (line 162). -/
def fetchFailMsg : String := "Failed to retrieve transcripts. Please check connection."

/-- `fetchJustCallTranscripts`: runs the page loop from page 1 with an empty
accumulator; any exception escaping the loop is replaced by the classified
`fetchFailMsg` error (lines 160-163), otherwise `allTranscripts` is
returned. -/
def fetchJustCallTranscripts (upstream : Nat → Except Unit JsValue) (fuel : Nat) :
    Option (Except String (List TranscriptData) × List Nat) :=
  match fetchPages upstream fuel 1 [] [] with
  | none => none
  | some (Except.ok recs, prog) => some (Except.ok recs, prog)
  | some (Except.error _, prog) => some (Except.error fetchFailMsg, prog)

mutual

/-- Conversion applied by `Array.prototype.join` (and by array/template
stringification) to each row element of `convertToCSV`: `null` and
`undefined` become the empty string, primitives their string form, arrays
join recursively, plain objects `[object Object]`. -/
def jsDisplay : JsValue → String
  | JsValue.undef => ""
  | JsValue.nullV => ""
  | JsValue.bool true => "true"
  | JsValue.bool false => "false"
  | JsValue.num n => toString n
  | JsValue.str s => s
  | JsValue.arr xs => String.intercalate "," (jsDisplayArr xs)
  | JsValue.obj _ => "[object Object]"

/-- `jsDisplay` across array elements. -/
def jsDisplayArr : List JsValue → List String
  | [] => []
  | v :: vs => jsDisplay v :: jsDisplayArr vs

end

/-- `row.transcript || ''` followed by use as a string: the transcript field
is always a string or `undefined` (see `normalizeCallPure`), and `undefined`
falls back to `''`. -/
def transcriptText : JsValue → String
  | JsValue.str s => s
  | _ => ""

/-- Character-level implementation of `.replace(/"/g, '""')`: every double
quote is doubled. -/
def escQuotes : List Char → List Char
  | [] => []
  | c :: cs => if c = '"' then '"' :: '"' :: escQuotes cs else c :: escQuotes cs

/-- The quoted transcript cell of a CSV row (line 178):
`` `"${(row.transcript || '').replace(/"/g, '""')}"` `` applied to the
already-extracted string. -/
def csvQuoteField (s : String) : String :=
  String.mk ('"' :: (escQuotes s.data ++ ['"']))

/-- `convertToCSV` (lines 168-182): a header row and one comma-joined row
per record, transcript quoted, everything joined by newlines. -/
def convertToCSV (data : List TranscriptData) : String :=
  let headers := ["Call ID", "Date Time", "From", "To", "Direction", "Duration",
    "Transcript", "Recording URL"]
  let rows := data.map (fun row =>
    [jsDisplay row.id, jsDisplay row.datetime, jsDisplay row.from_, jsDisplay row.to_,
     jsDisplay row.direction, jsDisplay row.duration,
     csvQuoteField (transcriptText row.transcript), jsDisplay row.recording_url])
  String.intercalate "\n" (String.intercalate "," headers :: rows.map (String.intercalate ","))

/-- A standard CSV parse of the interior of one quoted field (the opening
quote already consumed): `""` is an escaped quote, a lone `"` closes the
field and must end it. -/
def csvUnquoteAux : List Char → Option (List Char)
  | [] => none
  | c :: cs =>
    if c = '"' then
      match cs with
      | [] => some []
      | d :: ds => if d = '"' then (csvUnquoteAux ds).map (fun l => '"' :: l) else none
    else (csvUnquoteAux cs).map (fun l => c :: l)

/-- A standard CSV parse of one quoted field. -/
def csvUnquoteField (s : String) : Option String :=
  match s.data with
  | '"' :: rest => (csvUnquoteAux rest).map String.mk
  | _ => none

/-- A calendar date, the client-side meaning of a `YYYY-MM-DD` form value. -/
structure CalDate where
  year : Int
  month : Int
  day : Int

/-- Days between the Unix epoch and a civil date (the days-from-civil
algorithm); `new Date("YYYY-MM-DD")` is this day count at UTC midnight. -/
def daysFromCivil (dt : CalDate) : Int :=
  let y := if dt.month ≤ 2 then dt.year - 1 else dt.year
  let era := Int.fdiv y 400
  let yoe := y - era * 400
  let mp := Int.fmod (dt.month + 9) 12
  let doy := (153 * mp + 2) / 5 + dt.day - 1
  let doe := yoe * 365 + yoe / 4 - yoe / 100 + doy
  era * 146097 + doe - 719468

/-- `new Date(s).getTime()`: milliseconds since the epoch. -/
def dateMs (dt : CalDate) : Int := daysFromCivil dt * 86400000

/-- `Math.floor(new Date(config.startDate).getTime() / 1000)` (line 95);
the millisecond count is an exact multiple of 1000, so the floor is exact
division. -/
def startUnix (dt : CalDate) : Int := dateMs dt / 1000

/-- `Math.floor(new Date(config.endDate).getTime() / 1000) + 86399`
(line 96). -/
def endUnix (dt : CalDate) : Int := dateMs dt / 1000 + 86399

/-- The spec's `startOfDay` in epoch seconds. -/
def startOfDaySec (dt : CalDate) : Int := daysFromCivil dt * 86400

/-- Outcome of one `axios.get` probe in `testConnection`. -/
inductive ProbeResult where
  | ok : ProbeResult
  | http : Nat → ProbeResult
  | netErr : ProbeResult
deriving DecidableEq, Repr

/-- The two candidate strategies probed by `testConnection` (variant 1):
the local Vite proxy, then the public `corsproxy.io` relay. -/
inductive Strategy where
  | localProxy : Strategy
  | publicProxy : Strategy
deriving DecidableEq, Repr

/-- Errors thrown by `testConnection`, by their messages:
`connectionFailed` is "Connection failed. Please check your API Key and
Secret.", `invalidCredentials s` is "Invalid Credentials (Status s)...",
and `other` rethrows the original axios error. -/
inductive TcError where
  | connectionFailed : TcError
  | invalidCredentials : Nat → TcError
  | other : ProbeResult → TcError
deriving DecidableEq, Repr

/-- The relay-not-found signature of lines 54 and 62:
`error.response?.status === 404 || error.message === 'Network Error' ||
error.code === 'ERR_NETWORK'`. -/
def isRelayMiss : ProbeResult → Bool
  | ProbeResult.http 404 => true
  | ProbeResult.netErr => true
  | _ => false

/-- `testConnection` (lines 40-76): probes the local proxy; on a
relay-not-found failure it probes the public proxy (any failure there is
"Connection failed"); a 401/403 from the first probe throws
"Invalid Credentials" at once; anything else is rethrown.  Returns the
outcome together with the list of strategies actually probed. -/
def testConnection (localR pubR : ProbeResult) : Except TcError Bool × List Strategy :=
  match localR with
  | ProbeResult.ok => (Except.ok true, [Strategy.localProxy])
  | e =>
    if isRelayMiss e then
      match pubR with
      | ProbeResult.ok => (Except.ok true, [Strategy.localProxy, Strategy.publicProxy])
      | _ => (Except.error TcError.connectionFailed, [Strategy.localProxy, Strategy.publicProxy])
    else
      match e with
      | ProbeResult.http s =>
        if s = 403 ∨ s = 401 then
          (Except.error (TcError.invalidCredentials s), [Strategy.localProxy])
        else (Except.error (TcError.other e), [Strategy.localProxy])
      | _ => (Except.error (TcError.other e), [Strategy.localProxy])

/-- `AppState` from `src/types.ts`. -/
inductive AppState where
  | IDLE | RESEARCHING | GENERATING_CODE | COMPLETE | ERROR
deriving DecidableEq, Repr

/-- The hint shown by `App.tsx` when the fetch succeeds with zero records. -/
def noDataMsg : String :=
  "Connection successful, but no transcripts were found in this date range. Try expanding your search dates."

/-- `handleFetchRequest` in `src/App.tsx` (lines 15-36), reduced to the
state and error message it leaves behind: a resolved fetch reaches
`COMPLETE` (with the no-data hint when the list is empty), a rejected fetch
reaches `ERROR` with the thrown message. -/
def handleFetchOutcome : Except String (List TranscriptData) → AppState × Option String
  | Except.ok data =>
    (AppState.COMPLETE, if data.length = 0 then some noDataMsg else none)
  | Except.error m => (AppState.ERROR, some m)

/-- The running totals `onProgress` receives when the loop starts at
accumulated count `b` and sees `k` full pages followed by one page of `r`
records: `b+50, b+100, …, b+50k`, then `b+50k+r` unless the last page was
empty (an empty page breaks out of the loop before `onProgress`). -/
def progressTotals (b k r : Nat) : List Nat :=
  match k with
  | 0 => if r = 0 then [] else [b + r]
  | k + 1 => (b + 50) :: progressTotals (b + 50) k r

/-- A synthetic upstream: `k` pages of 50 empty-object records, then pages
of `r` such records. -/
def synthUpstream (k r : Nat) (p : Nat) : Except Unit JsValue :=
  if p ≤ k then Except.ok (JsValue.arr (List.replicate 50 (JsValue.obj [])))
  else Except.ok (JsValue.arr (List.replicate r (JsValue.obj [])))

/-- A present transcript source field with string value `s`, or `undefined`
when the source is absent (a JS object reads a missing key as `undefined`,
so the two are indistinguishable to the normalizer). -/
def optVal : Option String → JsValue
  | none => JsValue.undef
  | some s => JsValue.str s

/-- A present nested transcript source (`extra_details`/`justcall_iq`
holding a `transcript` key), or `undefined` when absent. -/
def optNestedVal : Option String → JsValue
  | none => JsValue.undef
  | some s => JsValue.obj [("transcript", JsValue.str s)]

/-- A raw call record carrying exactly the five transcript sources, in the
order the normalizer consults them. -/
def mkSources (o1 o2 o3 o4 o5 : Option String) : JsValue :=
  JsValue.obj [("iq_transcript", optVal o1), ("call_transcription", optVal o2),
    ("transcription", optVal o3), ("extra_details", optNestedVal o4),
    ("justcall_iq", optNestedVal o5)]

/-- The spec's transcript resolution: the first present, non-empty source
wins; otherwise the documented literal. -/
def firstNonEmpty : List (Option String) → String
  | [] => "[No Transcript Found]"
  | none :: rest => firstNonEmpty rest
  | some s :: rest => if s = "" then firstNonEmpty rest else s

/-- The header row of the generated CSV. -/
def csvHeaderLine : String :=
  "Call ID,Date Time,From,To,Direction,Duration,Transcript,Recording URL"

/-- One CSV data row: the eight cells of `convertToCSV` in their fixed
order, comma-joined. -/
def csvRow (row : TranscriptData) : String :=
  String.intercalate "," [jsDisplay row.id, jsDisplay row.datetime, jsDisplay row.from_,
    jsDisplay row.to_, jsDisplay row.direction, jsDisplay row.duration,
    csvQuoteField (transcriptText row.transcript), jsDisplay row.recording_url]

/-- The amended field policy, written from the spec side: read the key and
keep it when it is present with a truthy value, otherwise use the default
(a key that is absent reads as `undefined`, which is falsy). -/
def fieldOrDefault (fs : List (String × JsValue)) (k : String) (d : JsValue) : JsValue :=
  if truthy (lookupField fs k) then lookupField fs k else d

/-- Normalizing a list of accessible (non-`null`, non-`undefined`) values
never throws and preserves the record count. -/
theorem normalizeAll_ok (l : List JsValue) (h : l.all canAccess = true) :
    ∃ recs, normalizeAll l = Except.ok recs ∧ recs.length = l.length := by
  induction l with
  | nil => exact ⟨[], rfl, rfl⟩
  | cons c cs ih =>
    simp only [List.all_cons, Bool.and_eq_true] at h
    obtain ⟨recs, hr, hl⟩ := ih h.2
    refine ⟨normalizeCallPure c :: recs, ?_, by simp [hl]⟩
    simp [normalizeAll, normalizeCall, h.1, hr]

/-- A raw-array response body yields exactly its elements as the page's
records. -/
theorem extractCalls_arr (l : List JsValue) :
    extractCalls (JsValue.arr l) = Except.ok l := rfl

/-- A full page (50 records, all normalizable) advances the loop by one
page, appending the 50 normalized records and one progress call. -/
theorem fetchPages_step (upstream : Nat → Except Unit JsValue) (f page : Nat)
    (acc : List TranscriptData) (prog : List Nat) (l : List JsValue) (recs : List TranscriptData)
    (hup : upstream page = Except.ok (JsValue.arr l)) (hlen : l.length = 50)
    (hnorm : normalizeAll l = Except.ok recs) :
    fetchPages upstream (f + 1) page acc prog =
      fetchPages upstream f (page + 1) (acc ++ recs) (prog ++ [(acc ++ recs).length]) := by
  simp [fetchPages, hup, extractCalls_arr, hnorm, hlen]

/-- The number of progress calls: one per full page, plus one for the last
page unless it was empty. -/
theorem progressTotals_length (k : Nat) : ∀ b r,
    (progressTotals b k r).length = k + (if r = 0 then 0 else 1) := by
  induction k with
  | zero => intro b r; by_cases h : r = 0 <;> simp [progressTotals, h]
  | succ k ih => intro b r; simp [progressTotals, ih]; omega

/-- Every entry of the running-totals list strictly exceeds the count the
loop started from. -/
theorem progressTotals_head_lt (k : Nat) : ∀ b r y,
    y ∈ (progressTotals b k r).head? → b < y := by
  cases k with
  | zero =>
    intro b r y hy
    by_cases h : r = 0 <;> simp [progressTotals, h] at hy
    omega
  | succ k =>
    intro b r y hy
    simp [progressTotals] at hy
    omega

/-- The running totals passed to `onProgress` are strictly increasing. -/
theorem progressTotals_chain (k : Nat) : ∀ b r,
    List.Chain' (· < ·) (progressTotals b k r) := by
  induction k with
  | zero =>
    intro b r
    by_cases h : r = 0 <;> simp [progressTotals, h]
  | succ k ih =>
    intro b r
    rw [progressTotals, List.chain'_cons']
    exact ⟨fun y hy => progressTotals_head_lt k (b + 50) r y hy, ih (b + 50) r⟩

/-- Main loop invariant for a synthetic upstream: after `k` full pages and
a final short page of `r < 50` records starting from page `page`, the loop
returns the accumulated records extended by `50k + r` normalized ones, and
the progress calls extend `prog` by `progressTotals acc.length k r`. -/
theorem fetchPages_synth (k : Nat) : ∀ (upstream : Nat → Except Unit JsValue)
    (r fuel page : Nat) (acc : List TranscriptData) (prog : List Nat),
    (∀ p, page ≤ p → p < page + k →
      ∃ l, upstream p = Except.ok (JsValue.arr l) ∧ l.length = 50 ∧ l.all canAccess = true) →
    (∃ l, upstream (page + k) = Except.ok (JsValue.arr l) ∧ l.length = r ∧
      l.all canAccess = true) →
    r < 50 → k + 1 ≤ fuel →
    ∃ R, fetchPages upstream fuel page acc prog =
        some (Except.ok R, prog ++ progressTotals acc.length k r) ∧
      R.length = acc.length + 50 * k + r := by
  induction k with
  | zero =>
    intro upstream r fuel page acc prog _ hlast hr hfuel
    obtain ⟨l, hup, hlen, hobj⟩ := hlast
    rw [Nat.add_zero] at hup
    obtain ⟨f, rfl⟩ : ∃ f, fuel = f + 1 := ⟨fuel - 1, by omega⟩
    by_cases hr0 : r = 0
    · subst hr0
      have hl : l = [] := List.length_eq_zero.mp hlen
      subst hl
      exact ⟨acc, by simp [fetchPages, hup, extractCalls_arr, progressTotals], by omega⟩
    · obtain ⟨recs, hnorm, hreclen⟩ := normalizeAll_ok l hobj
      subst hlen
      refine ⟨acc ++ recs, ?_, by simp [hreclen]⟩
      simp [fetchPages, hup, extractCalls_arr, hnorm, hr0, hr, progressTotals, hreclen]
  | succ k ih =>
    intro upstream r fuel page acc prog hfull hlast hr hfuel
    obtain ⟨l, hup, hlen, hobj⟩ := hfull page (le_refl _) (by omega)
    obtain ⟨recs, hnorm, hreclen⟩ := normalizeAll_ok l hobj
    obtain ⟨f, rfl⟩ : ∃ f, fuel = f + 1 := ⟨fuel - 1, by omega⟩
    have hstep := fetchPages_step upstream f page acc prog l recs hup hlen hnorm
    have hacc2 : (acc ++ recs).length = acc.length + 50 := by simp [hreclen, hlen]
    obtain ⟨R, hR, hRlen⟩ := ih upstream r f (page + 1) (acc ++ recs)
      (prog ++ [(acc ++ recs).length])
      (fun p hp1 hp2 => hfull p (by omega) (by omega))
      (by rw [show page + 1 + k = page + (k + 1) by omega]; exact hlast)
      hr (by omega)
    refine ⟨R, ?_, by rw [hRlen, hacc2]; ring⟩
    rw [hstep, hR, hacc2]
    simp [progressTotals]

/-- Loop invariant for a failing trace: `k` full pages and then a thrown
page request make the loop surface an error (never a partial result). -/
theorem fetchPages_err (k : Nat) : ∀ (upstream : Nat → Except Unit JsValue)
    (fuel page : Nat) (acc : List TranscriptData) (prog : List Nat),
    (∀ p, page ≤ p → p < page + k →
      ∃ l, upstream p = Except.ok (JsValue.arr l) ∧ l.length = 50 ∧ l.all canAccess = true) →
    upstream (page + k) = Except.error () →
    k + 1 ≤ fuel →
    ∃ P, fetchPages upstream fuel page acc prog = some (Except.error (), P) := by
  induction k with
  | zero =>
    intro upstream fuel page acc prog _ herr hfuel
    rw [Nat.add_zero] at herr
    obtain ⟨f, rfl⟩ : ∃ f, fuel = f + 1 := ⟨fuel - 1, by omega⟩
    exact ⟨prog, by simp [fetchPages, herr]⟩
  | succ k ih =>
    intro upstream fuel page acc prog hfull herr hfuel
    obtain ⟨l, hup, hlen, hobj⟩ := hfull page (le_refl _) (by omega)
    obtain ⟨recs, hnorm, _⟩ := normalizeAll_ok l hobj
    obtain ⟨f, rfl⟩ : ∃ f, fuel = f + 1 := ⟨fuel - 1, by omega⟩
    have hstep := fetchPages_step upstream f page acc prog l recs hup hlen hnorm
    obtain ⟨P, hP⟩ := ih upstream f (page + 1) (acc ++ recs) (prog ++ [(acc ++ recs).length])
      (fun p hp1 hp2 => hfull p (by omega) (by omega))
      (by rw [show page + 1 + k = page + (k + 1) by omega]; exact herr)
      (by omega)
    exact ⟨P, by rw [hstep, hP]⟩

/-- Parsing the interior of an escaped-and-closed field recovers the
original characters. -/
theorem csvUnquoteAux_escQuotes (l : List Char) :
    csvUnquoteAux (escQuotes l ++ ['"']) = some l := by
  induction l with
  | nil => rfl
  | cons c cs ih =>
    by_cases hc : c = '"'
    · subst hc
      simp [escQuotes, csvUnquoteAux, ih]
    · rw [escQuotes, if_neg hc, List.cons_append, csvUnquoteAux.eq_def]
      simp [hc, ih]


/-- Resolution over the five ordered sources matches first-non-empty-wins. -/
theorem computeText_mkSources (o1 o2 o3 o4 o5 : Option String) :
    computeTextPure (mkSources o1 o2 o3 o4 o5) =
      JsValue.str (firstNonEmpty [o1, o2, o3, o4, o5]) := by
  rcases o1 with _ | s1 <;> rcases o2 with _ | s2 <;> rcases o3 with _ | s3 <;>
      rcases o4 with _ | s4 <;> rcases o5 with _ | s5 <;>
    simp [mkSources, optVal, optNestedVal, computeTextPure, getPropT, lookupField,
      truthy, firstNonEmpty] <;>
    split_ifs <;> simp_all [firstNonEmpty]

/-- C1 (amended): for a synthetic upstream of `k` full pages of 50 records
followed by one final page of `r < 50` records, the fetch returns exactly
`50k + r` records with strictly increasing running totals, and invokes
`onProgress` exactly `k + 1` times when `r ≥ 1` but only `k` times when
`r = 0` — an empty final page breaks out of the loop before the progress
callback fires. -/
theorem fetch_pagination_amended (upstream : Nat → Except Unit JsValue) (k r fuel : Nat)
    (hfull : ∀ p, 1 ≤ p → p ≤ k →
      ∃ l, upstream p = Except.ok (JsValue.arr l) ∧ l.length = 50 ∧ l.all canAccess = true)
    (hlast : ∃ l, upstream (k + 1) = Except.ok (JsValue.arr l) ∧ l.length = r ∧
      l.all canAccess = true)
    (hr : r < 50) (hfuel : k + 1 ≤ fuel) :
    ∃ R, fetchJustCallTranscripts upstream fuel =
        some (Except.ok R, progressTotals 0 k r) ∧
      R.length = 50 * k + r ∧
      (progressTotals 0 k r).length = k + (if r = 0 then 0 else 1) ∧
      List.Chain' (· < ·) (progressTotals 0 k r) := by
  obtain ⟨R, hR, hRlen⟩ := fetchPages_synth k upstream r fuel 1 [] []
    (fun p hp1 hp2 => hfull p hp1 (by omega))
    (by rw [show 1 + k = k + 1 by omega]; exact hlast) hr hfuel
  refine ⟨R, ?_, by simpa using hRlen, progressTotals_length k 0 r, progressTotals_chain k 0 r⟩
  simp only [List.length_nil, List.nil_append] at hR
  simp [fetchJustCallTranscripts, hR]

/-- C1 (witness): one full page then a final page of 2 records: 52 records,
progress totals `[50, 52]`. -/
theorem fetch_pagination_amended_witness :
    ∃ R, fetchJustCallTranscripts (synthUpstream 1 2) 2 =
        some (Except.ok R, progressTotals 0 1 2) ∧
      R.length = 50 * 1 + 2 ∧
      (progressTotals 0 1 2).length = 1 + (if 2 = 0 then 0 else 1) ∧
      List.Chain' (· < ·) (progressTotals 0 1 2) :=
  fetch_pagination_amended (synthUpstream 1 2) 1 2 2
    (fun p hp1 hp2 => ⟨List.replicate 50 (JsValue.obj []),
      by have hp : p = 1 := by omega
         subst hp; rfl,
      by simp, by decide⟩)
    ⟨List.replicate 2 (JsValue.obj []), rfl, by simp, by decide⟩
    (by omega) (by omega)

/-- C1 (counterexample): with `k = 1` full pages and a final page of
`r = 0` records the fetch does return `50·1 + 0` records, but `onProgress`
fires only once — the claimed `k + 1 = 2` calls are wrong for `r = 0`. -/
theorem fetch_progress_count_cex :
    fetchJustCallTranscripts (synthUpstream 1 0) 2 =
      some (Except.ok (List.replicate 50 (normalizeCallPure (JsValue.obj []))), [50]) ∧
    (List.replicate 50 (normalizeCallPure (JsValue.obj []))).length = 50 * 1 + 0 ∧
    ([50] : List Nat).length ≠ 1 + 1 :=
  ⟨rfl, by simp, by decide⟩

/-- C2: normalization is total on raw call records (any JSON object),
never throwing, and the empty object `{}` gets exactly the documented
fallbacks: transcript `"[No Transcript Found]"`, duration `"0"`, from
`"Unknown"`. -/
theorem normalize_totality_defaults :
    (∀ fs : List (String × JsValue),
      normalizeCall (JsValue.obj fs) = Except.ok (normalizeCallPure (JsValue.obj fs))) ∧
    (normalizeCallPure (JsValue.obj [])).transcript = JsValue.str "[No Transcript Found]" ∧
    (normalizeCallPure (JsValue.obj [])).duration = JsValue.str "0" ∧
    (normalizeCallPure (JsValue.obj [])).from_ = JsValue.str "Unknown" :=
  ⟨fun _ => rfl, rfl, rfl, rfl⟩

/-- C3 (counterexample): three concrete failures of the stated policy.
A `from` field present with the empty string yields the fallback
`"Unknown"`, not the input value — the code tests truthiness, not
presence.  On `\x7b\x7d` the `id` output is `undefined`, which is none of
the documented defaults — `id` has no fallback at all.  And on `\x7b\x7d`
the datetime output is `"Unknown Date"`, which is also none of the
documented defaults (`'Unknown'`, `'0'`, `''`). -/
theorem normalize_policy_cex :
    ((normalizeCallPure (JsValue.obj [("from", JsValue.str "")])).from_ =
        JsValue.str "Unknown" ∧
      JsValue.str "Unknown" ≠ JsValue.str "") ∧
    ((normalizeCallPure (JsValue.obj [])).id = JsValue.undef ∧
      JsValue.undef ≠ JsValue.str "Unknown" ∧
      JsValue.undef ≠ JsValue.str "0" ∧
      JsValue.undef ≠ JsValue.str "") ∧
    ((normalizeCallPure (JsValue.obj [])).datetime = JsValue.str "Unknown Date" ∧
      JsValue.str "Unknown Date" ≠ JsValue.str "Unknown" ∧
      JsValue.str "Unknown Date" ≠ JsValue.str "0" ∧
      JsValue.str "Unknown Date" ≠ JsValue.str "") :=
  ⟨⟨rfl, fun h => absurd (JsValue.str.inj h) (by decide)⟩,
   ⟨rfl, fun h => JsValue.noConfusion h, fun h => JsValue.noConfusion h,
     fun h => JsValue.noConfusion h⟩,
   ⟨rfl, fun h => absurd (JsValue.str.inj h) (by decide),
     fun h => absurd (JsValue.str.inj h) (by decide),
     fun h => absurd (JsValue.str.inj h) (by decide)⟩⟩

/-- C3 (amended): for every RawCallRecord, each non-transcript output
field other than `id` follows a truthy-or-fallback policy — the output
equals the input field whenever it is present with a truthy value, and
equals the documented default (`"Unknown"` for from/to/direction, `"0"`
for duration, `""` for the URL) whenever it is absent or falsy; the
datetime output takes the first truthy of its two sources, `datetime` then
`date`, with `"Unknown Date"` as the final default (a record with only
`date: "2020-05-05"` gets that date); `id` is copied verbatim with no
fallback (`undefined` when absent). -/
theorem normalize_field_policy (fs : List (String × JsValue)) :
    ((normalizeCallPure (JsValue.obj fs)).id = lookupField fs "id") ∧
    ((normalizeCallPure (JsValue.obj fs)).datetime =
      fieldOrDefault fs "datetime" (fieldOrDefault fs "date" (JsValue.str "Unknown Date"))) ∧
    ((normalizeCallPure (JsValue.obj fs)).from_ =
      fieldOrDefault fs "from" (JsValue.str "Unknown")) ∧
    ((normalizeCallPure (JsValue.obj fs)).to_ =
      fieldOrDefault fs "to" (JsValue.str "Unknown")) ∧
    ((normalizeCallPure (JsValue.obj fs)).duration =
      fieldOrDefault fs "duration" (JsValue.str "0")) ∧
    ((normalizeCallPure (JsValue.obj fs)).direction =
      fieldOrDefault fs "direction" (JsValue.str "Unknown")) ∧
    ((normalizeCallPure (JsValue.obj fs)).recording_url =
      fieldOrDefault fs "recording_url" (JsValue.str "")) ∧
    ((normalizeCallPure (JsValue.obj [("date", JsValue.str "2020-05-05")])).datetime =
      JsValue.str "2020-05-05") :=
  ⟨rfl, rfl, rfl, rfl, rfl, rfl, rfl, rfl⟩

/-- C4: transcript resolution takes the first non-empty source in the
fixed order (IQ transcript, call transcription, transcription, nested
extra-details transcript, nested justcall-IQ transcript); in particular
`iq_transcript: "A"` beats `call_transcription: "B"`, and with no source
present the literal `"[No Transcript Found]"` is used. -/
theorem transcript_fallback_order (o1 o2 o3 o4 o5 : Option String) :
    (normalizeCallPure (mkSources o1 o2 o3 o4 o5)).transcript =
      JsValue.str (firstNonEmpty [o1, o2, o3, o4, o5]) ∧
    (normalizeCallPure (JsValue.obj [("iq_transcript", JsValue.str "A"),
      ("call_transcription", JsValue.str "B")])).transcript = JsValue.str "A" ∧
    (normalizeCallPure (JsValue.obj [])).transcript =
      JsValue.str "[No Transcript Found]" := by
  refine ⟨?_, rfl, rfl⟩
  simp [normalizeCallPure, computeText_mkSources]

/-- C5: `convertToCSV` emits the fixed header row followed by one
comma-joined row per record in the fixed field order, the transcript cell
quote-wrapped with internal quotes doubled; quoting round-trips through a
standard CSV field parse for every string, and in particular
`He said "hi"` becomes `"He said ""hi"""` and parses back. -/
theorem convertToCSV_structure_roundtrip :
    (∀ data, convertToCSV data =
      String.intercalate "\n" (csvHeaderLine :: data.map csvRow)) ∧
    csvQuoteField "He said \"hi\"" = "\"He said \"\"hi\"\"\"" ∧
    (∀ s, csvUnquoteField (csvQuoteField s) = some s) ∧
    csvUnquoteField "\"He said \"\"hi\"\"\"" = some "He said \"hi\"" := by
  refine ⟨fun data => ?_, rfl, fun s => ?_, rfl⟩
  · simp [convertToCSV, csvRow, csvHeaderLine, List.map_map]
    rfl
  · simp [csvQuoteField, csvUnquoteField, csvUnquoteAux_escQuotes]

/-- C6: the query interval is `[startOfDay(start), startOfDay(end)+86399]`
in epoch seconds, and for equal start and end dates (e.g. 2024-01-01 twice)
it is exactly 86400 seconds wide. -/
theorem date_range_inclusive (s e : CalDate) :
    startUnix s = startOfDaySec s ∧
    endUnix e = startOfDaySec e + 86399 ∧
    endUnix s - startUnix s + 1 = 86400 ∧
    startUnix ⟨2024, 1, 1⟩ = 1704067200 ∧
    endUnix ⟨2024, 1, 1⟩ = 1704153599 := by
  refine ⟨?_, ?_, ?_, by decide, by decide⟩
  · show dateMs s / 1000 = daysFromCivil s * 86400
    unfold dateMs
    omega
  · show dateMs e / 1000 + 86399 = daysFromCivil e * 86400 + 86399
    unfold dateMs
    omega
  · simp [endUnix, startUnix]

/-- C7: a first-strategy probe failing with the relay-not-found signature
(404 or a generic network failure) makes `testConnection` attempt the next
candidate, while a 401/403 failure terminates selection at once with the
invalid-credentials error and no further candidate probed. -/
theorem testConnection_strategy_fallback (localR pubR : ProbeResult) :
    (isRelayMiss localR = true →
      (testConnection localR pubR).2 = [Strategy.localProxy, Strategy.publicProxy]) ∧
    (∀ s, (s = 401 ∨ s = 403) → localR = ProbeResult.http s →
      testConnection localR pubR =
        (Except.error (TcError.invalidCredentials s), [Strategy.localProxy])) := by
  constructor
  · intro h
    cases localR with
    | ok => simp [isRelayMiss] at h
    | http n => cases pubR <;> simp [testConnection, h]
    | netErr => cases pubR <;> simp [testConnection, h]
  · rintro s hs rfl
    rcases hs with rfl | rfl <;> rfl

/-- C7 (witness): a local 404 falls through to the public proxy; a local
403 stops immediately with the credentials error. -/
theorem testConnection_strategy_fallback_witness :
    (testConnection (ProbeResult.http 404) ProbeResult.ok).2 =
      [Strategy.localProxy, Strategy.publicProxy] ∧
    testConnection (ProbeResult.http 403) ProbeResult.ok =
      (Except.error (TcError.invalidCredentials 403), [Strategy.localProxy]) :=
  ⟨(testConnection_strategy_fallback (ProbeResult.http 404) ProbeResult.ok).1 rfl,
   (testConnection_strategy_fallback (ProbeResult.http 403) ProbeResult.ok).2 403
     (Or.inr rfl) rfl⟩

/-- C8: if a page request inside the loop fails after `k` full pages, the
fetch surfaces the classified failure message and never resolves with any
partial record list. -/
theorem fetch_error_atomic (upstream : Nat → Except Unit JsValue) (k fuel : Nat)
    (hfull : ∀ p, 1 ≤ p → p ≤ k →
      ∃ l, upstream p = Except.ok (JsValue.arr l) ∧ l.length = 50 ∧ l.all canAccess = true)
    (herr : upstream (k + 1) = Except.error ())
    (hfuel : k + 1 ≤ fuel) :
    ∃ P, fetchJustCallTranscripts upstream fuel = some (Except.error fetchFailMsg, P) ∧
      ∀ R P', fetchJustCallTranscripts upstream fuel ≠ some (Except.ok R, P') := by
  obtain ⟨P, hP⟩ := fetchPages_err k upstream fuel 1 [] []
    (fun p hp1 hp2 => hfull p hp1 (by omega))
    (by rw [show 1 + k = k + 1 by omega]; exact herr) hfuel
  refine ⟨P, by simp [fetchJustCallTranscripts, hP], ?_⟩
  intro R P' hcontra
  simp [fetchJustCallTranscripts, hP] at hcontra

/-- C8 (witness): a failure on the very first page rejects the whole
fetch. -/
theorem fetch_error_atomic_witness :
    ∃ P, fetchJustCallTranscripts (fun _ => Except.error ()) 1 =
        some (Except.error fetchFailMsg, P) ∧
      ∀ R P', fetchJustCallTranscripts (fun _ => Except.error ()) 1 ≠
        some (Except.ok R, P') :=
  fetch_error_atomic (fun _ => Except.error ()) 0 1
    (fun p hp1 hp2 => absurd (le_trans hp1 hp2) (by omega)) rfl (by omega)

/-- C9: zero records on page 1 resolve normally with the empty list (the
no-data outcome the UI reports on `COMPLETE`), while a transport failure is
a thrown error reaching the `ERROR` state — the caller can tell the two
apart. -/
theorem fetch_empty_range (upstream : Nat → Except Unit JsValue) (fuel : Nat)
    (hf : 1 ≤ fuel) :
    (upstream 1 = Except.ok (JsValue.arr []) →
      fetchJustCallTranscripts upstream fuel = some (Except.ok [], []) ∧
      handleFetchOutcome (Except.ok []) = (AppState.COMPLETE, some noDataMsg)) ∧
    (upstream 1 = Except.error () →
      fetchJustCallTranscripts upstream fuel = some (Except.error fetchFailMsg, []) ∧
      handleFetchOutcome (Except.error fetchFailMsg) = (AppState.ERROR, some fetchFailMsg)) ∧
    AppState.COMPLETE ≠ AppState.ERROR := by
  obtain ⟨f, rfl⟩ : ∃ f, fuel = f + 1 := ⟨fuel - 1, by omega⟩
  refine ⟨fun h => ⟨?_, rfl⟩, fun h => ⟨?_, rfl⟩, by decide⟩
  · simp [fetchJustCallTranscripts, fetchPages, h, extractCalls_arr]
  · simp [fetchJustCallTranscripts, fetchPages, h]

/-- C9 (witness): the two outcomes at fuel 1, on an empty page and on a
failing request. -/
theorem fetch_empty_range_witness :
    (fetchJustCallTranscripts (fun _ => Except.ok (JsValue.arr [])) 1 =
        some (Except.ok [], []) ∧
      handleFetchOutcome (Except.ok []) = (AppState.COMPLETE, some noDataMsg)) ∧
    (fetchJustCallTranscripts (fun _ => Except.error ()) 1 =
        some (Except.error fetchFailMsg, []) ∧
      handleFetchOutcome (Except.error fetchFailMsg) = (AppState.ERROR, some fetchFailMsg)) :=
  ⟨(fetch_empty_range (fun _ => Except.ok (JsValue.arr [])) 1 (by omega)).1 rfl,
   (fetch_empty_range (fun _ => Except.error ()) 1 (by omega)).2.1 rfl⟩

/-- C10: on the empty record list `convertToCSV` returns exactly the
header line, with no rows and no trailing newline. -/
theorem convertToCSV_empty_header :
    convertToCSV [] =
      "Call ID,Date Time,From,To,Direction,Duration,Transcript,Recording URL" := rfl
